import Mathlib

set_option autoImplicit false

/-!
Verification of the block-oriented document patcher in `update_domains.py`.

The document is modelled as an ordered sequence of lines (`List Line`,
`Line := List Char`), exactly the representation the script works with after
`config_content.split('\n')`; lines are assumed newline-free, so joining and
re-splitting is the identity and every operation of the script is a pure
function on the line list.  Python's `str.strip`, substring test (`in`),
`startswith`, the `# Last updated:` regular-expression search, and the three
line scans (replace-path block end, strip-path block end, domains-section end)
are translated function by function below.
-/

abbrev Line := List Char

/-- Whitespace characters recognised by Python's `str.strip()` (ASCII part). -/
def isPySpace (c : Char) : Bool :=
  c == ' ' || c == '\t' || c == '\n' || c == '\r' || c == '\x0b' || c == '\x0c'

/-- Python `line.strip()`. -/
def pyStrip (l : Line) : Line :=
  ((l.dropWhile isPySpace).reverse.dropWhile isPySpace).reverse

/-- Python `line.strip() == ''`. -/
def blankL (l : Line) : Bool :=
  (pyStrip l).isEmpty

/-- Boolean list-prefix test (Python `str.startswith`). -/
def prefB : Line → Line → Bool
  | [], _ => true
  | _ :: _, [] => false
  | a :: as, b :: bs => a == b && prefB as bs

/-- Python substring test `pat in s`. -/
def strIn (pat : Line) : Line → Bool
  | [] => pat.isEmpty
  | c :: rest => prefB pat (c :: rest) || strIn pat rest

/-- True when lines `e` and `e+1` are both blank (the two-consecutive-blank test
of the scans; inside the scans both indices are in range). -/
def pairB (lines : List Line) (e : Nat) : Bool :=
  blankL (lines.getD e []) && blankL (lines.getD (e + 1) [])

/-- Fuel-indexed version of the replace-path block-end loop of
`update_config_section` (`while end_idx < len(lines)-1: if blank/blank: break`).
The fuel is the number of remaining loop iterations `(len-1) - e`. -/
def replaceScanAux (lines : List Line) : Nat → Nat → Nat
  | 0, e => e
  | r + 1, e => if pairB lines e then e else replaceScanAux lines r (e + 1)

/-- Replace-path block-end scan: starting index in, exclusive end index out. -/
def replaceScan (lines : List Line) (s : Nat) : Nat :=
  replaceScanAux lines (lines.length - 1 - s) s

/-- Fuel-indexed version of the strip-path block-end loop of
`strip_managed_sources`; identical to the replace scan except that on a
blank/blank hit it does `end_idx += 1` before breaking (the second blank line
is kept, the first is part of the removed range). -/
def stripScanAux (lines : List Line) : Nat → Nat → Nat
  | 0, e => e
  | r + 1, e => if pairB lines e then e + 1 else stripScanAux lines r (e + 1)

/-- Strip-path block-end scan. -/
def stripScan (lines : List Line) (s : Nat) : Nat :=
  stripScanAux lines (lines.length - 1 - s) s

/-- Python `find_marker_position`: index of the first line containing the
marker as a substring. -/
def find_marker_position : List Line → Line → Option Nat
  | [], _ => none
  | l :: rest, marker =>
    if strIn marker l then some 0
    else (find_marker_position rest marker).map (· + 1)

/-- The `domains:` locator of `update_config_section`: first line whose
stripped content equals `domains:`. -/
def find_domains_line : List Line → Option Nat
  | [] => none
  | l :: rest =>
    if pyStrip l = "domains:".data then some 0
    else (find_domains_line rest).map (· + 1)

/-- The top-level-key test of `find_domains_section_end`
(`line and not line[0].isspace() and not line.strip().startswith('#')`). -/
def topLevelB (l : Line) : Bool :=
  match l with
  | [] => false
  | c :: _ => !(isPySpace c) && !(prefB "#".data (pyStrip l))

/-- Fuel-indexed loop body of Python `find_domains_section_end`. -/
def fdseAux (lines : List Line) : Nat → Nat → Nat
  | 0, i => i
  | r + 1, i =>
    if blankL (lines.getD i []) && blankL (lines.getD (i + 1) []) &&
        decide (i + 1 < lines.length) && decide (i + 2 < lines.length) &&
        prefB "- name:".data (pyStrip (lines.getD (i + 2) []))
    then i
    else if topLevelB (lines.getD i []) then i
    else fdseAux lines r (i + 1)

/-- Python `find_domains_section_end`. -/
def find_domains_section_end (lines : List Line) (i : Nat) : Nat :=
  if i < lines.length then fdseAux lines (lines.length - i) i else lines.length

/-- The literal part of the timestamp pattern `# Last updated: ([0-9T:\-Z]+)`. -/
def tsLit : Line := "# Last updated: ".data

/-- The character class `[0-9T:\-Z]` of the timestamp pattern. -/
def tsClassB (c : Char) : Bool :=
  c.isDigit || c == 'T' || c == ':' || c == '-' || c == 'Z'

/-- Attempt to match the timestamp regular expression at the start of `s`:
the literal `# Last updated: ` followed by at least one class character; the
capture is the maximal (greedy) class run. -/
def matchTsAt (s : Line) : Option Line :=
  if prefB tsLit s then
    let tok := (s.drop tsLit.length).takeWhile tsClassB
    if tok.isEmpty then none else some tok
  else none

/-- Python `re.search` of the timestamp pattern on one line: leftmost position
at which the whole pattern matches. -/
def searchTs : Line → Option Line
  | [] => none
  | c :: rest =>
    match matchTsAt (c :: rest) with
    | some tok => some tok
    | none => searchTs rest

/-- Python `extract_timestamp_near_marker`: find the marker line, then return
the first timestamp match in the 5-line window starting there. -/
def extract_timestamp_near_marker (lines : List Line) (marker : Line) : Option Line :=
  match find_marker_position lines marker with
  | none => none
  | some m => ((lines.drop m).take 5).findSome? searchTs

/-- Decimal rendering of the domain count used in the metadata line. -/
def natStr (n : Nat) : Line := Nat.toDigits 10 n

/-- The lines contributed by the `new_block` list of `update_config_section`
after the final `'\n'.join`: marker line, metadata line, one blank line, then
the formatted entry lines (an empty entry list contributes one empty line,
since `'\n'.join([])` is the empty string). -/
def newBlockLines (marker timestamp countStr : Line) (fmtLines : List Line) : List Line :=
  [marker ++ ". Blocked 24/7".data,
   tsLit ++ timestamp ++ " (".data ++ countStr ++ " domains)".data,
   []] ++ (if fmtLines.isEmpty then [[]] else fmtLines)

/-- Python `update_config_section`: replace the existing block (marker index
known) or insert a new one before the end of the `domains:` section.  `none`
models the `sys.exit(1)` taken when no `domains:` line exists (the
`SectionNotFound` failure: nothing is written). -/
def update_config_section (lines : List Line) (marker : Line) (markerIdx : Option Nat)
    (fmtLines : List Line) (timestamp : Line) (domainCount : Nat) : Option (List Line) :=
  let nb := newBlockLines marker timestamp (natStr domainCount) fmtLines
  match markerIdx with
  | some m => some (lines.take m ++ nb ++ lines.drop (replaceScan lines (m + 1)))
  | none =>
    match find_domains_line lines with
    | none => none
    | some d =>
      let k := find_domains_section_end lines (d + 1)
      some (lines.take k ++ ([[]] ++ nb) ++ lines.drop k)

/-- The `www.`-stripping step of `update_source`. -/
def strip_www (d : Line) : Line :=
  if prefB "www.".data d then d.drop 4 else d

/-- The order-preserving dedup loop of `update_source` (`seen` set + append). -/
def dedupFirst (seen : List Line) : List Line → List Line
  | [] => []
  | d :: rest =>
    if d ∈ seen then dedupFirst seen rest
    else d :: dedupFirst (d :: seen) rest

/-- Step 7 of `update_source`: strip the `www.` prefix, then deduplicate
keeping first occurrences. -/
def normalize_domains (domains : List Line) : List Line :=
  dedupFirst [] (domains.map strip_www)

/-- The idempotency test of `update_source`
(`if existing_timestamp and existing_timestamp == timestamp`). -/
def tokensMatch (existing : Option Line) (timestamp : Line) : Bool :=
  match existing with
  | some t => !t.isEmpty && t == timestamp
  | none => false

/-- Outcome of the pure part of `update_source` on one document: the
`UpToDate` early return (no write), a successful patch carrying the new
document that is then written, or the `SectionNotFound` exit (no write). -/
inductive UpdateResult where
  | upToDate : UpdateResult
  | updated : List Line → UpdateResult
  | sectionNotFound : UpdateResult
deriving DecidableEq

/-- Steps 3-8 of Python `update_source` (everything between reading the config
file and writing it back), for one source given its fetched entry list and
freshness token. -/
def update_source_core (lines : List Line) (marker : Line) (parse : Line → Line)
    (domains : List Line) (timestamp : Line) : UpdateResult :=
  let markerIdx := find_marker_position lines marker
  let existing :=
    match markerIdx with
    | some _ => extract_timestamp_near_marker lines marker
    | none => none
  if tokensMatch existing timestamp then .upToDate
  else if markerIdx.isNone && !(lines.any (fun l => strIn "domains:".data l)) then
    .sectionNotFound
  else
    let uniq := normalize_domains domains
    match update_config_section lines marker markerIdx (uniq.map parse) timestamp uniq.length with
    | some newLines => .updated newLines
    | none => .sectionNotFound

/-- One iteration of the strip loop for one source: if the marker occurs,
remove `lines[marker_idx:end_idx]` where the strip scan keeps the second of
the two consecutive blank lines. -/
def strip_one (marker : Line) (lines : List Line) : Option (List Line) :=
  match find_marker_position lines marker with
  | none => none
  | some m => some (lines.take m ++ lines.drop (stripScan lines (m + 1)))

/-- The loop of Python `strip_managed_sources` over the registry, returning
the final document and the number of removed sources; the file is written
back only when that number is positive. -/
def strip_managed (markers : List Line) (lines : List Line) : List Line × Nat :=
  match markers with
  | [] => (lines, 0)
  | mk :: rest =>
    match strip_one mk lines with
    | none => strip_managed rest lines
    | some d =>
      let p := strip_managed rest d
      (p.1, p.2 + 1)

/-- The four marker strings of the `SOURCES` registry. -/
def sourceMarkers : List Line :=
  ["# Domains from https://github.com/Bon-Appetit/porn-domains".data,
   "# Domains from https://github.com/StevenBlack/hosts".data,
   "# Domains from https://github.com/hagezi/dns-blocklists (DoH/VPN/TOR/Proxy Bypass)".data,
   "# Domains from https://github.com/tachnoraki/unblockstop".data]

/-- Python `strip_managed_sources` applied to the registry. -/
def strip_managed_sources (lines : List Line) : List Line × Nat :=
  strip_managed sourceMarkers lines

/-- One registry entry as seen by the batch loop: marker, per-entry formatter,
and the fetch outcome (`none` models a fetch that calls `sys.exit(1)`). -/
structure SourceSpec where
  marker : Line
  parse : Line → Line
  fetch : Option (List Line × Line)

/-- The three counters of the batch summary: `success_count`, `skipped_count`
(incremented only when `SystemExit(0)` is caught) and `error_count`. -/
structure Tally where
  succeeded : Nat
  skipped : Nat
  errs : Nat
deriving DecidableEq

/-- Python `update_all_sources`: drive `update_source` once per registry
entry, catching the per-source `SystemExit`.  A fetch failure or a
`SectionNotFound` exit raises `SystemExit(1)` (counted as an error, document
unchanged); the up-to-date path and a successful write both RETURN normally
from `update_source`, so both land in `success_count` — `update_source` never
raises `SystemExit(0)`, hence `skipped_count` is never incremented. -/
def run_all : List SourceSpec → List Line → List Line × Tally
  | [], doc => (doc, ⟨0, 0, 0⟩)
  | s :: rest, doc =>
    match s.fetch with
    | none =>
      let p := run_all rest doc
      (p.1, ⟨p.2.succeeded, p.2.skipped, p.2.errs + 1⟩)
    | some (domains, ts) =>
      match update_source_core doc s.marker s.parse domains ts with
      | .upToDate =>
        let p := run_all rest doc
        (p.1, ⟨p.2.succeeded + 1, p.2.skipped, p.2.errs⟩)
      | .updated nd =>
        let p := run_all rest nd
        (p.1, ⟨p.2.succeeded + 1, p.2.skipped, p.2.errs⟩)
      | .sectionNotFound =>
        let p := run_all rest doc
        (p.1, ⟨p.2.succeeded, p.2.skipped, p.2.errs + 1⟩)

/-- Modelled from the spec: the terminator of §4.3 rule (b), "a line that is
non-blank, not comment-prefixed, and has no leading whitespace". -/
def spec_top_level (l : Line) : Bool :=
  !(blankL l) && (match l with
    | [] => false
    | c :: _ => !(isPySpace c) && c != '#')

/-- Fuel-indexed loop of the spec-modelled `findBlockEnd`. -/
def specFbeAux (lines : List Line) : Nat → Nat → Nat
  | 0, i => i
  | r + 1, i =>
    if blankL (lines.getD i []) && blankL (lines.getD (i + 1) []) &&
        decide (i + 1 < lines.length)
    then i
    else if spec_top_level (lines.getD i []) then i
    else specFbeAux lines r (i + 1)

/-- Modelled from the spec (§4.3 `findBlockEnd`, replace semantics, as the
claim describes the replace-path scan): stop at the first of two consecutive
blank lines, or at the first non-blank, non-comment, non-indented line; if
neither occurs the end is the document length. -/
def spec_find_block_end (lines : List Line) (s : Nat) : Nat :=
  if s < lines.length then specFbeAux lines (lines.length - s) s else lines.length

/-- Modelled from the spec: "locate the named top-level section by exact line
match" — the first line that is exactly `domains:`, hence non-indented. -/
def spec_locate_domains : List Line → Option Nat
  | [] => none
  | l :: rest =>
    if l = "domains:".data then some 0
    else (spec_locate_domains rest).map (· + 1)

/-- A document decomposed into manual regions and managed blocks.  A block
chunk carries its marker, its marker line and the rest of the block body; it
renders as the marker line, the body, and the terminating pair of blank
lines. -/
inductive Chunk where
  | manual : List Line → Chunk
  | block : Line → Line → List Line → Chunk

/-- Lines of one chunk. -/
def renderChunk : Chunk → List Line
  | .manual ls => ls
  | .block _ hdr body => hdr :: (body ++ [[], []])

/-- Lines of a decomposed document. -/
def render : List Chunk → List Line
  | [] => []
  | c :: r => renderChunk c ++ render r

/-- The decomposition after a strip: every managed block is replaced by the
single blank line that the strip scan leaves behind. -/
def strippedChunks : List Chunk → List Chunk
  | [] => []
  | .manual ls :: r => .manual ls :: strippedChunks r
  | .block _ _ _ :: r => .manual [[]] :: strippedChunks r

/-- Markers of the blocks of a decomposition, in document order. -/
def blockMarkers : List Chunk → List Line
  | [] => []
  | .manual _ :: r => blockMarkers r
  | .block m _ _ :: r => m :: blockMarkers r

/-- No marker of `ms` occurs as a substring of any of the lines `ls`. -/
def noMarkerIn (ms : List Line) (ls : List Line) : Prop :=
  ∀ m ∈ ms, ∀ l ∈ ls, strIn m l = false

/-- The body of a block never puts two blank lines in a row and does not end
in a blank line (reading the body as being followed by a blank line), so the
strip scan's first blank/blank hit is the block's own terminator. -/
def bodyOK (body : List Line) : Prop :=
  ∀ j, j < body.length → blankL (body.getD j []) = true →
    blankL ((body ++ [[]]).getD (j + 1) []) = false

/-- Well-formedness of one chunk with respect to the registry markers `ms`:
manual lines mention no marker; a block's marker line contains its own marker
and no other, its body mentions no marker and satisfies `bodyOK`. -/
def chunkOK (ms : List Line) : Chunk → Prop
  | .manual ls => noMarkerIn ms ls
  | .block m hdr body =>
      m ∈ ms ∧ strIn m hdr = true ∧ (∀ m' ∈ ms, m' ≠ m → strIn m' hdr = false) ∧
      noMarkerIn ms body ∧ bodyOK body

instance (ms ls : List Line) : Decidable (noMarkerIn ms ls) := by
  unfold noMarkerIn; infer_instance

instance (body : List Line) : Decidable (bodyOK body) := by
  unfold bodyOK; infer_instance

instance (ms : List Line) (c : Chunk) : Decidable (chunkOK ms c) := by
  cases c <;> simp only [chunkOK] <;> infer_instance

/-- The `[start, end)` splice range computed by `update_config_section` for a
document and marker: the replaced block `[marker_idx, replace-scan-end)` when
the marker exists, the empty range at the insertion point when a new block is
inserted, and `(0, 0)` (nothing spliced) when the operation fails. -/
def splice_bounds (lines : List Line) (marker : Line) : Nat × Nat :=
  match find_marker_position lines marker with
  | some m => (m, replaceScan lines (m + 1))
  | none =>
    match find_domains_line lines with
    | some d =>
      (find_domains_section_end lines (d + 1), find_domains_section_end lines (d + 1))
    | none => (0, 0)

/-- The document held after one per-source step of the batch loop: the new
document when the step wrote one, the old document otherwise. -/
def updResultDoc (r : UpdateResult) (dflt : List Line) : List Line :=
  match r with
  | .updated d => d
  | _ => dflt

/-- Concrete documents and sources used by the witnesses and counterexamples. -/
def c1wDoc : List Line :=
  ["domains:".data, "# S. Blocked 24/7".data, "  - x".data, [], [], "ports:".data]

def c1wMarker : Line := "# S".data

def c1wRes : List Line :=
  ["domains:".data, "# S. Blocked 24/7".data, "# Last updated: T (1 domains)".data,
   [], "  - z".data, [], [], "ports:".data]

def c2Doc : List Line :=
  ["# M. Blocked 24/7".data, "# meta".data, [], "  - x".data,
   "ports:".data, "  - y".data, [], [], "tail:".data]

def c3Lines : List Line := ["conf:".data, "domains:".data, "  - keep".data]

def c3Marker : Line := "# SRC".data

def c3Parse : Line → Line := fun l => "  - ".data ++ l

def c3Ts : Line := "2025-01-01T00:00:00Z".data

def c3BadTs : Line := "23 Dec 2025 10:32 UTC".data

def c3BadDoc1 : List Line :=
  ["conf:".data, "domains:".data, "  - keep".data, [],
   "# SRC. Blocked 24/7".data,
   "# Last updated: 23 Dec 2025 10:32 UTC (1 domains)".data, [], "  - a.com".data]

def c3GoodDoc1 : List Line :=
  ["conf:".data, "domains:".data, "  - keep".data, [],
   "# SRC. Blocked 24/7".data,
   "# Last updated: 2025-01-01T00:00:00Z (1 domains)".data, [], "  - a.com".data]

def c5Doc : List Line := ["  domains:".data, "x".data, "domains:".data, "y".data]

def c5Marker : Line := "# NEW".data

def c5wDoc : List Line := ["domains:".data, "  - m".data]

def c6Lines : List Line :=
  ["domains:".data, "  - a".data, "other:".data, "  - b".data]

def c6Marker : Line := "# M".data

def c6Parse : Line → Line := fun l => "  - ".data ++ l

def c6Doc1 : List Line :=
  ["domains:".data, "  - a".data, [], "# M. Blocked 24/7".data,
   "# Last updated: 2025Z (1 domains)".data, [], "  - x".data,
   "other:".data, "  - b".data]

def c6wLines : List Line :=
  ["domains:".data, "  - m".data, [], [], "- name: old".data]

def c6wMarker : Line := "# SRC2".data

def c6wDoc1 : List Line :=
  ["domains:".data, "  - m".data, [], "# SRC2. Blocked 24/7".data,
   "# Last updated: 2025-01-01T00:00:00Z (1 domains)".data, [], "  - a.com".data,
   [], [], "- name: old".data]

def c7Doc : List Line :=
  ["domains:".data, "  - m".data, [], "# A. Blocked 24/7".data,
   "# Last updated: 2025-01-01T00:00:00Z (1 domains)".data, [], "  - a.com".data,
   [], [], "ports:".data]

def c7s1 : SourceSpec := ⟨"# A".data, fun l => "  - ".data ++ l, some (["a.com".data], c3Ts)⟩

def c7s2 : SourceSpec := ⟨"# B".data, fun l => "  - ".data ++ l, none⟩

def c7s3 : SourceSpec :=
  ⟨"# C".data, fun l => "  - ".data ++ l, some (["c.com".data], "2025-03-03T00:00:00Z".data)⟩

def c8Doc : List Line :=
  ["domains:".data, "  - manual.example".data, [], "# SRC. Blocked 24/7".data,
   "# Last updated: 2025-01-01T00:00:00Z (1 domains)".data, [], "  - a.com".data,
   [], [], "ports:".data]

def c8Src : SourceSpec :=
  ⟨"# SRC".data, fun l => "  - ".data ++ l, some (["a.com".data], c3Ts)⟩

def c4m1 : Line := "# Domains from https://github.com/Bon-Appetit/porn-domains".data

def c4m3 : Line :=
  "# Domains from https://github.com/hagezi/dns-blocklists (DoH/VPN/TOR/Proxy Bypass)".data

def c4Chunks : List Chunk :=
  [Chunk.manual ["conf:".data, "domains:".data, "  - manual.example".data],
   Chunk.block c4m1 (c4m1 ++ ". Blocked 24/7".data)
     ["# Last updated: 2025-01-01T00:00:00Z (2 domains)".data, [],
      "  - a.com".data, "  - b.com".data],
   Chunk.manual ["  - handmade.example".data],
   Chunk.block c4m3 (c4m3 ++ ". Blocked 24/7".data)
     ["# Last updated: 2025-02-02T00:00:00Z (1 domains)".data, [], "  - c.com".data],
   Chunk.manual ["ports:".data, "  - 443".data]]

def c4cexLines : List Line :=
  ["domains:".data, "  - m".data, "ports:".data, "  - 443".data]

def c4cexDoc : List Line :=
  ["domains:".data, "  - m".data, [], c4m1 ++ ". Blocked 24/7".data,
   "# Last updated: 2025-01-01T00:00:00Z (1 domains)".data, [], "  - a.com".data,
   "ports:".data, "  - 443".data]

theorem prefB_append_self (p r : Line) : prefB p (p ++ r) = true := by
  induction p with
  | nil => rfl
  | cons a as ih => simp [prefB, ih]

theorem strIn_append_self (p r : Line) (h : p ≠ []) : strIn p (p ++ r) = true := by
  cases p with
  | nil => exact absurd rfl h
  | cons a as =>
    simp only [List.cons_append, strIn, Bool.or_eq_true]
    exact Or.inl (prefB_append_self (a :: as) r)

theorem strIn_nil_false {m : Line} (h : m ≠ []) : strIn m [] = false := by
  cases m with
  | nil => exact absurd rfl h
  | cons a as => rfl

theorem fmp_lt {ls : List Line} {m : Line} {i : Nat}
    (h : find_marker_position ls m = some i) : i < ls.length := by
  induction ls generalizing i with
  | nil => exact absurd h (by simp [find_marker_position])
  | cons l rest ih =>
    rw [find_marker_position] at h
    by_cases hc : strIn m l = true
    · rw [if_pos hc] at h
      cases h
      simp
    · rw [if_neg hc] at h
      rcases Option.map_eq_some'.mp h with ⟨j, hj, rfl⟩
      have := ih hj
      simp only [List.length_cons]
      omega

theorem fmp_none {ls : List Line} {m : Line}
    (h : ∀ l ∈ ls, strIn m l = false) : find_marker_position ls m = none := by
  induction ls with
  | nil => rfl
  | cons l rest ih =>
    have h1 : strIn m l = false := h l (List.mem_cons_self l rest)
    have h2 : find_marker_position rest m = none :=
      ih (fun x hx => h x (List.mem_cons_of_mem _ hx))
    simp [find_marker_position, h1, h2]

theorem fmp_append {pre ls : List Line} {m : Line}
    (h : ∀ l ∈ pre, strIn m l = false) :
    find_marker_position (pre ++ ls) m =
      (find_marker_position ls m).map (· + pre.length) := by
  induction pre with
  | nil =>
    cases hfmp : find_marker_position ls m <;> simp [hfmp]
  | cons l pre ih =>
    have h1 : strIn m l = false := h l (List.mem_cons_self _ _)
    have h2 := ih (fun x hx => h x (List.mem_cons_of_mem _ hx))
    simp only [List.cons_append, find_marker_position, h1, Bool.false_eq_true,
      if_false, List.append_eq, h2]
    cases find_marker_position ls m with
    | none => rfl
    | some a =>
      simp only [Option.map_some', List.length_cons, Option.some.injEq]
      omega

theorem fmp_cons_found {l : Line} {rest : List Line} {m : Line}
    (h : strIn m l = true) : find_marker_position (l :: rest) m = some 0 := by
  simp [find_marker_position, h]

theorem replaceScanAux_ge (lines : List Line) (r e : Nat) :
    e ≤ replaceScanAux lines r e := by
  induction r generalizing e with
  | zero => simp [replaceScanAux]
  | succ r ih =>
    rw [replaceScanAux]
    by_cases hp : pairB lines e = true
    · rw [if_pos hp]
    · rw [if_neg hp]
      have := ih (e + 1)
      omega

theorem replaceScanAux_le (lines : List Line) (r e : Nat) :
    replaceScanAux lines r e ≤ e + r := by
  induction r generalizing e with
  | zero => simp [replaceScanAux]
  | succ r ih =>
    rw [replaceScanAux]
    by_cases hp : pairB lines e = true
    · rw [if_pos hp]; omega
    · rw [if_neg hp]
      have := ih (e + 1)
      omega

theorem replaceScanAux_pair (lines : List Line) (r e : Nat)
    (h : replaceScanAux lines r e < e + r) :
    pairB lines (replaceScanAux lines r e) = true := by
  induction r generalizing e with
  | zero =>
    rw [replaceScanAux] at h
    omega
  | succ r ih =>
    rw [replaceScanAux] at h ⊢
    by_cases hp : pairB lines e = true
    · rw [if_pos hp] at h ⊢
      exact hp
    · rw [if_neg hp] at h ⊢
      exact ih (e + 1) (by omega)

theorem replaceScanAux_min (lines : List Line) (r : Nat) {i : Nat} :
    ∀ e, e ≤ i → i < replaceScanAux lines r e → pairB lines i = false := by
  induction r with
  | zero =>
    intro e h1 h2
    rw [replaceScanAux] at h2
    omega
  | succ r ih =>
    intro e h1 h2
    rw [replaceScanAux] at h2
    by_cases hp : pairB lines e = true
    · rw [if_pos hp] at h2
      omega
    · rw [if_neg hp] at h2
      rcases Nat.eq_or_lt_of_le h1 with rfl | hlt
      · exact Bool.eq_false_iff.mpr hp
      · exact ih (e + 1) hlt h2

theorem replaceScan_ge (lines : List Line) (s : Nat) : s ≤ replaceScan lines s :=
  replaceScanAux_ge lines _ s

theorem replaceScan_le_max (lines : List Line) (s : Nat) :
    replaceScan lines s ≤ max s (lines.length - 1) := by
  have := replaceScanAux_le lines (lines.length - 1 - s) s
  unfold replaceScan
  omega

theorem replaceScan_pair (lines : List Line) (s : Nat)
    (h : replaceScan lines s < lines.length - 1) :
    pairB lines (replaceScan lines s) = true := by
  have hle := replaceScanAux_le lines (lines.length - 1 - s) s
  have hge := replaceScanAux_ge lines (lines.length - 1 - s) s
  unfold replaceScan at h ⊢
  exact replaceScanAux_pair lines _ s (by omega)

theorem replaceScan_min (lines : List Line) (s i : Nat)
    (h1 : s ≤ i) (h2 : i < replaceScan lines s) : pairB lines i = false :=
  replaceScanAux_min lines _ s h1 h2

theorem replaceScan_eq_of (lines : List Line) (s p : Nat)
    (h1 : s ≤ p) (h2 : pairB lines p = true) (h3 : p < lines.length - 1)
    (h4 : ∀ i, s ≤ i → i < p → pairB lines i = false) :
    replaceScan lines s = p := by
  have hge := replaceScan_ge lines s
  rcases Nat.lt_trichotomy (replaceScan lines s) p with hlt | heq | hgt
  · have hp := replaceScan_pair lines s (by omega)
    have hfalse := h4 _ hge hlt
    rw [hfalse] at hp
    exact absurd hp (by simp)
  · exact heq
  · have hfalse := replaceScan_min lines s p h1 hgt
    rw [hfalse] at h2
    exact absurd h2 (by simp)

theorem stripScanAux_eq (lines : List Line) (r e : Nat) :
    stripScanAux lines r e =
      (if replaceScanAux lines r e < e + r then replaceScanAux lines r e + 1
       else replaceScanAux lines r e) := by
  induction r generalizing e with
  | zero => simp [stripScanAux, replaceScanAux]
  | succ r ih =>
    rw [stripScanAux, replaceScanAux]
    by_cases hp : pairB lines e = true
    · rw [if_pos hp, if_pos hp, if_pos (by omega)]
    · rw [if_neg hp, if_neg hp, ih (e + 1)]
      have he : e + 1 + r = e + (r + 1) := by omega
      rw [he]

theorem stripScan_eq_of (lines : List Line) (s p : Nat)
    (h1 : s ≤ p) (h2 : pairB lines p = true) (h3 : p < lines.length - 1)
    (h4 : ∀ i, s ≤ i → i < p → pairB lines i = false) :
    stripScan lines s = p + 1 := by
  have hrep := replaceScan_eq_of lines s p h1 h2 h3 h4
  unfold replaceScan at hrep
  unfold stripScan
  rw [stripScanAux_eq, hrep, if_pos (by omega)]

theorem fdseAux_le (lines : List Line) (r : Nat) : ∀ i, fdseAux lines r i ≤ i + r := by
  induction r with
  | zero => intro i; simp [fdseAux]
  | succ r ih =>
    intro i
    rw [fdseAux]
    split
    · omega
    · split
      · omega
      · have := ih (i + 1)
        omega

theorem fdse_le_length (lines : List Line) (i : Nat) :
    find_domains_section_end lines i ≤ lines.length := by
  unfold find_domains_section_end
  split
  · have := fdseAux_le lines (lines.length - i) i
    omega
  · omega

theorem blankL_nil : blankL [] = true := rfl

theorem blankL_cons_false {c : Char} (t : Line) (h : isPySpace c = false) :
    blankL (c :: t) = false := by
  unfold blankL pyStrip
  rw [List.dropWhile_cons, if_neg (by rw [h]; exact Bool.false_ne_true)]
  have hne : (c :: t).reverse.dropWhile isPySpace ≠ [] := by
    intro hnil
    have := List.dropWhile_eq_nil_iff.mp hnil c (by simp)
    rw [h] at this
    exact Bool.false_ne_true this
  cases hrev : (c :: t).reverse.dropWhile isPySpace with
  | nil => exact absurd hrev hne
  | cons x xs => simp

theorem drop_append_plus (A B : List Line) (n : Nat) :
    (A ++ B).drop (A.length + n) = B.drop n := by
  induction A with
  | nil => simp
  | cons a A ih =>
    simp only [List.cons_append, List.length_cons]
    rw [show A.length + 1 + n = (A.length + n) + 1 by omega, List.drop_succ_cons]
    exact ih

theorem strip_one_found (m hdr : Line) (pre body post : List Line)
    (hpre : ∀ l ∈ pre, strIn m l = false)
    (hhdr : strIn m hdr = true)
    (hbody : bodyOK body) :
    strip_one m (pre ++ hdr :: (body ++ [] :: [] :: post)) =
      some (pre ++ [] :: post) := by
  set doc := pre ++ hdr :: (body ++ [] :: [] :: post) with hdocdef
  have hdoc2 : doc = (pre ++ hdr :: body) ++ ([] :: [] :: post) := by
    simp [hdocdef]
  have hlen1 : (pre ++ hdr :: body).length = pre.length + 1 + body.length := by
    simp [List.length_append]
    omega
  have hfmp : find_marker_position doc m = some pre.length := by
    rw [hdocdef, fmp_append hpre, fmp_cons_found hhdr]
    simp
  set p := pre.length + 1 + body.length with hp
  have hdlen : doc.length = pre.length + 1 + body.length + 2 + post.length := by
    simp [hdocdef, List.length_append]
    omega
  have hgetp : doc.getD p [] = [] := by
    rw [hdoc2, List.getD_append_right _ _ _ _ (by rw [hlen1])]
    have hz : p - (pre ++ hdr :: body).length = 0 := by rw [hlen1]; omega
    rw [hz]
    rfl
  have hgetp1 : doc.getD (p + 1) [] = [] := by
    rw [hdoc2, List.getD_append_right _ _ _ _ (by rw [hlen1]; omega)]
    have hz : p + 1 - (pre ++ hdr :: body).length = 1 := by rw [hlen1]; omega
    rw [hz]
    rfl
  have hpair : pairB doc p = true := by
    rw [pairB, hgetp, hgetp1]
    rfl
  have hmid : ∀ i, pre.length + 1 ≤ i → i < p → pairB doc i = false := by
    intro i hi1 hi2
    set j := i - (pre.length + 1) with hj
    have hjlt : j < body.length := by omega
    have hd1 : doc.getD i [] = body.getD j [] := by
      rw [hdoc2, List.getD_append _ _ _ _ (by rw [hlen1]; omega)]
      rw [List.getD_append_right _ _ _ _ (by omega : pre.length ≤ i)]
      rw [show i - pre.length = j + 1 by omega, List.getD_cons_succ]
    have hd2 : doc.getD (i + 1) [] = (body ++ [[]]).getD (j + 1) [] := by
      rcases Nat.lt_or_ge (i + 1) p with hlt | hge
      · have hj1 : j + 1 < body.length := by omega
        rw [hdoc2, List.getD_append _ _ _ _ (by rw [hlen1]; omega)]
        rw [List.getD_append_right _ _ _ _ (by omega : pre.length ≤ i + 1)]
        rw [show i + 1 - pre.length = (j + 1) + 1 by omega, List.getD_cons_succ]
        rw [List.getD_append _ _ _ _ hj1]
      · have hip : i + 1 = p := by omega
        rw [hip, hgetp]
        rw [List.getD_append_right _ _ _ _ (by omega : body.length ≤ j + 1)]
        rw [show j + 1 - body.length = 0 by omega]
        rfl
    rw [pairB, hd1, hd2]
    by_cases hb : blankL (body.getD j []) = true
    · rw [hbody j hjlt hb]
      simp
    · rw [Bool.eq_false_iff.mpr hb]
      simp
  have hscan : stripScan doc (pre.length + 1) = p + 1 :=
    stripScan_eq_of doc (pre.length + 1) p (by omega) hpair (by omega) hmid
  simp only [strip_one, hfmp, hscan]
  have ht : doc.take pre.length = pre := by
    rw [hdocdef]
    exact List.take_left pre _
  have hd : doc.drop (p + 1) = [] :: post := by
    rw [hdoc2, show p + 1 = (pre ++ hdr :: body).length + 1 by rw [hlen1]]
    rw [drop_append_plus]
    rfl
  rw [ht, hd]

theorem render_append (a b : List Chunk) : render (a ++ b) = render a ++ render b := by
  induction a with
  | nil => rfl
  | cons c r ih => simp [render, ih]

theorem strippedChunks_append (a b : List Chunk) :
    strippedChunks (a ++ b) = strippedChunks a ++ strippedChunks b := by
  induction a with
  | nil => rfl
  | cons c r ih => cases c <;> simp [strippedChunks, ih]

theorem blockMarkers_append (a b : List Chunk) :
    blockMarkers (a ++ b) = blockMarkers a ++ blockMarkers b := by
  induction a with
  | nil => rfl
  | cons c r ih => cases c <;> simp [blockMarkers, ih]

theorem blockMarkers_sub {ms : List Line} {cs : List Chunk}
    (h : ∀ c ∈ cs, chunkOK ms c) : ∀ m ∈ blockMarkers cs, m ∈ ms := by
  induction cs with
  | nil => intro m hm; simp [blockMarkers] at hm
  | cons c r ih =>
    intro m hm
    cases c with
    | manual ls =>
      rw [blockMarkers] at hm
      exact ih (fun x hx => h x (List.mem_cons_of_mem _ hx)) m hm
    | block m' hdr body =>
      rw [blockMarkers] at hm
      rcases List.mem_cons.mp hm with rfl | hm'
      · exact (h _ (List.mem_cons_self _ _)).1
      · exact ih (fun x hx => h x (List.mem_cons_of_mem _ hx)) m hm'

theorem strippedChunks_id {cs : List Chunk} (h : blockMarkers cs = []) :
    strippedChunks cs = cs := by
  induction cs with
  | nil => rfl
  | cons c r ih =>
    cases c with
    | manual ls =>
      rw [blockMarkers] at h
      rw [strippedChunks, ih h]
    | block m hdr body =>
      rw [blockMarkers] at h
      exact absurd h (by simp)

theorem blockMarkers_stripped (cs : List Chunk) :
    blockMarkers (strippedChunks cs) = [] := by
  induction cs with
  | nil => rfl
  | cons c r ih => cases c <;> simp [strippedChunks, blockMarkers, ih]

theorem strippedChunks_ok {ms : List Line} {cs : List Chunk}
    (h : ∀ c ∈ cs, chunkOK ms c) (hne : ∀ m ∈ ms, m ≠ []) :
    ∀ c ∈ strippedChunks cs, chunkOK ms c := by
  induction cs with
  | nil => intro c hc; simp [strippedChunks] at hc
  | cons c0 r ih =>
    intro c hc
    cases c0 with
    | manual ls =>
      rw [strippedChunks] at hc
      rcases List.mem_cons.mp hc with rfl | hc'
      · exact h _ (List.mem_cons_self _ _)
      · exact ih (fun x hx => h x (List.mem_cons_of_mem _ hx)) c hc'
    | block m hdr body =>
      rw [strippedChunks] at hc
      rcases List.mem_cons.mp hc with rfl | hc'
      · show noMarkerIn ms [[]]
        intro m' hm' l hl
        have hleq : l = [] := by simpa using hl
        subst hleq
        exact strIn_nil_false (hne m' hm')
      · exact ih (fun x hx => h x (List.mem_cons_of_mem _ hx)) c hc'

theorem noMarker_render {ms : List Line} {cs : List Chunk} {m : Line}
    (h : ∀ c ∈ cs, chunkOK ms c) (hm : m ∈ ms) (hnb : m ∉ blockMarkers cs)
    (hne : m ≠ []) :
    ∀ l ∈ render cs, strIn m l = false := by
  induction cs with
  | nil => intro l hl; simp [render] at hl
  | cons c r ih =>
    intro l hl
    rw [render] at hl
    have hih := ih (fun x hx => h x (List.mem_cons_of_mem _ hx))
    cases c with
    | manual ls =>
      rcases List.mem_append.mp hl with hl1 | hl2
      · exact h _ (List.mem_cons_self _ _) m hm l hl1
      · exact hih (fun hc => hnb (by rw [blockMarkers]; exact hc)) l hl2
    | block m' hdr body =>
      have hnbm : m ∉ blockMarkers (Chunk.block m' hdr body :: r) := hnb
      rw [blockMarkers] at hnbm
      have hmm' : m ≠ m' := fun heq => hnbm (heq ▸ List.mem_cons_self _ _)
      have hnbr : m ∉ blockMarkers r := fun hc => hnbm (List.mem_cons_of_mem _ hc)
      obtain ⟨hb1, hb2, hb3, hb4, hb5⟩ := h _ (List.mem_cons_self _ _)
      rcases List.mem_append.mp hl with hl1 | hl2
      · rcases List.mem_cons.mp hl1 with rfl | hl1'
        · exact hb3 m hm hmm'
        · rcases List.mem_append.mp hl1' with hlb | hltail
          · exact hb4 m hm l hlb
          · have hleq : l = [] := by
              rcases List.mem_cons.mp hltail with rfl | h2
              · rfl
              · simpa using h2
            subst hleq
            exact strIn_nil_false hne
      · exact hih hnbr l hl2

theorem marker_mem_blockMarkers {cs : List Chunk} {m hdr : Line} {body : List Line}
    (h : Chunk.block m hdr body ∈ cs) : m ∈ blockMarkers cs := by
  induction cs with
  | nil => simp at h
  | cons c r ih =>
    rcases List.mem_cons.mp h with rfl | h'
    · rw [blockMarkers]; exact List.mem_cons_self _ _
    · cases c with
      | manual ls => rw [blockMarkers]; exact ih h'
      | block m2 h2 b2 => rw [blockMarkers]; exact List.mem_cons_of_mem _ (ih h')

theorem block_split {cs : List Chunk} {m : Line} (h : m ∈ blockMarkers cs) :
    ∃ cs1 hdr body cs2, cs = cs1 ++ Chunk.block m hdr body :: cs2 ∧
      m ∉ blockMarkers cs1 := by
  induction cs with
  | nil => simp [blockMarkers] at h
  | cons c r ih =>
    cases c with
    | manual ls =>
      rw [blockMarkers] at h
      rcases ih h with ⟨cs1, hdr, body, cs2, heq, hnb⟩
      refine ⟨Chunk.manual ls :: cs1, hdr, body, cs2, by rw [heq]; rfl, ?_⟩
      rw [blockMarkers]
      exact hnb
    | block m' hdr' body' =>
      rw [blockMarkers] at h
      by_cases hm : m = m'
      · subst hm
        exact ⟨[], hdr', body', r, rfl, by simp [blockMarkers]⟩
      · have h' : m ∈ blockMarkers r := by
          rcases List.mem_cons.mp h with h1 | h2
          · exact absurd h1 hm
          · exact h2
        rcases ih h' with ⟨cs1, hdr, body, cs2, heq, hnb⟩
        refine ⟨Chunk.block m' hdr' body' :: cs1, hdr, body, cs2, by rw [heq]; rfl, ?_⟩
        rw [blockMarkers]
        intro hcon
        rcases List.mem_cons.mp hcon with h1 | h2
        · exact hm h1
        · exact hnb h2

theorem chunkOK_shrink {m : Line} {ms : List Line} {c : Chunk}
    (h : chunkOK (m :: ms) c)
    (hnb : ∀ hdr body, c = Chunk.block m hdr body → False) :
    chunkOK ms c := by
  cases c with
  | manual ls =>
    show noMarkerIn ms ls
    intro m' hm' l hl
    exact h m' (List.mem_cons_of_mem _ hm') l hl
  | block m' hdr body =>
    obtain ⟨h1, h2, h3, h4, h5⟩ := h
    have hmm : m' ≠ m := fun heq => hnb hdr body (by rw [heq])
    refine ⟨?_, h2, ?_, ?_, h5⟩
    · rcases List.mem_cons.mp h1 with h1' | h1'
      · exact absurd h1' hmm
      · exact h1'
    · intro m'' hm'' hne'
      exact h3 m'' (List.mem_cons_of_mem _ hm'') hne'
    · intro m'' hm'' l hl
      exact h4 m'' (List.mem_cons_of_mem _ hm'') l hl

theorem strip_managed_good : ∀ (ms : List Line) (cs : List Chunk),
    (∀ c ∈ cs, chunkOK ms c) → (blockMarkers cs).Nodup → (∀ m ∈ ms, m ≠ []) →
    strip_managed ms (render cs) =
      (render (strippedChunks cs), (blockMarkers cs).length) := by
  intro ms
  induction ms with
  | nil =>
    intro cs h1 h2 h3
    have hb : blockMarkers cs = [] := by
      cases hbm : blockMarkers cs with
      | nil => rfl
      | cons x xs =>
        have := blockMarkers_sub h1 x (by rw [hbm]; exact List.mem_cons_self _ _)
        simp at this
    rw [strip_managed, strippedChunks_id hb, hb]
    rfl
  | cons m ms ih =>
    intro cs h1 h2 h3
    have hmne : m ≠ [] := h3 m (List.mem_cons_self _ _)
    have h3' : ∀ m' ∈ ms, m' ≠ [] := fun m' hm' => h3 m' (List.mem_cons_of_mem _ hm')
    by_cases hmem : m ∈ blockMarkers cs
    · rcases block_split hmem with ⟨cs1, hdr, body, cs2, rfl, hnb1⟩
      obtain ⟨hb1, hb2, hb3, hb4, hb5⟩ :=
        h1 (Chunk.block m hdr body) (by simp)
      have hbm : blockMarkers (cs1 ++ Chunk.block m hdr body :: cs2)
          = blockMarkers cs1 ++ m :: blockMarkers cs2 := by
        rw [blockMarkers_append]
        rfl
      have hnodup2 := h2
      rw [hbm] at hnodup2
      have hnb2 : m ∉ blockMarkers cs2 := by
        rcases List.nodup_append.mp hnodup2 with ⟨_, hn2, _⟩
        exact (List.nodup_cons.mp hn2).1
      have hpre : ∀ l ∈ render cs1, strIn m l = false :=
        noMarker_render (fun c hc => h1 c (by simp [hc]))
          (List.mem_cons_self _ _) hnb1 hmne
      have hdoc : render (cs1 ++ Chunk.block m hdr body :: cs2)
          = render cs1 ++ hdr :: (body ++ [] :: [] :: render cs2) := by
        rw [render_append]
        simp [render, renderChunk]
      have hstrip := strip_one_found m hdr (render cs1) body (render cs2) hpre hb2 hb5
      rw [hdoc]
      simp only [strip_managed, hstrip]
      have hcs' : render cs1 ++ [] :: render cs2
          = render (cs1 ++ Chunk.manual [[]] :: cs2) := by
        rw [render_append]
        simp [render, renderChunk]
      rw [hcs']
      have h1' : ∀ c ∈ cs1 ++ Chunk.manual [[]] :: cs2, chunkOK ms c := by
        intro c hc
        rcases List.mem_append.mp hc with hc1 | hc2
        · refine chunkOK_shrink (h1 c (by simp [hc1])) ?_
          intro hdr' body' heq
          exact hnb1 (marker_mem_blockMarkers (heq ▸ hc1))
        · rcases List.mem_cons.mp hc2 with rfl | hc2'
          · show noMarkerIn ms [[]]
            intro m' hm' l hl
            have hleq : l = [] := by simpa using hl
            subst hleq
            exact strIn_nil_false (h3' m' hm')
          · refine chunkOK_shrink (h1 c (by simp [hc2'])) ?_
            intro hdr' body' heq
            exact hnb2 (marker_mem_blockMarkers (heq ▸ hc2'))
      have h2' : (blockMarkers (cs1 ++ Chunk.manual [[]] :: cs2)).Nodup := by
        have hbm' : blockMarkers (cs1 ++ Chunk.manual [[]] :: cs2)
            = blockMarkers cs1 ++ blockMarkers cs2 := by
          rw [blockMarkers_append]
          rfl
        rw [hbm']
        rcases List.nodup_append.mp hnodup2 with ⟨hn1, hn2, hdisj⟩
        rw [List.nodup_append]
        refine ⟨hn1, (List.nodup_cons.mp hn2).2, ?_⟩
        intro a ha1 ha2
        exact hdisj ha1 (List.mem_cons_of_mem _ ha2)
      rw [ih _ h1' h2' h3']
      have hsc : strippedChunks (cs1 ++ Chunk.manual [[]] :: cs2)
          = strippedChunks (cs1 ++ Chunk.block m hdr body :: cs2) := by
        rw [strippedChunks_append, strippedChunks_append]
        rfl
      have hlen : (blockMarkers (cs1 ++ Chunk.manual [[]] :: cs2)).length + 1
          = (blockMarkers (cs1 ++ Chunk.block m hdr body :: cs2)).length := by
        rw [blockMarkers_append, blockMarkers_append]
        simp [blockMarkers]
        omega
      simp only [Prod.mk.injEq]
      constructor
      · rw [hsc]
      · rw [← hlen]
    · have hnone : strip_one m (render cs) = none := by
        rw [strip_one,
          fmp_none (noMarker_render h1 (List.mem_cons_self _ _) hmem hmne)]
      simp only [strip_managed, hnone]
      have h1' : ∀ c ∈ cs, chunkOK ms c := by
        intro c hc
        refine chunkOK_shrink (h1 c hc) ?_
        intro hdr' body' heq
        exact hmem (marker_mem_blockMarkers (heq ▸ hc))
      exact ih cs h1' h2 h3'

theorem isEmpty_false_of_ne {α : Type} {l : List α} (h : l ≠ []) : l.isEmpty = false := by
  cases hl : l.isEmpty
  · rfl
  · exact absurd (List.isEmpty_iff.mp hl) h

theorem tokensMatch_self {ts : Line} (h : ts ≠ []) : tokensMatch (some ts) ts = true := by
  show (!ts.isEmpty && ts == ts) = true
  rw [isEmpty_false_of_ne h, beq_self_eq_true]
  rfl

theorem takeWhile_append_not {t r : Line} {c : Char}
    (ht : ∀ x ∈ t, tsClassB x = true) (hc : tsClassB c = false) :
    (t ++ c :: r).takeWhile tsClassB = t := by
  induction t with
  | nil => simp [List.takeWhile_cons, hc]
  | cons a t ih =>
    have ha := ht a (List.mem_cons_self _ _)
    simp [List.takeWhile_cons, ha, ih (fun x hx => ht x (List.mem_cons_of_mem _ hx))]

theorem searchTs_of_match {s tok : Line} (h : matchTsAt s = some tok) :
    searchTs s = some tok := by
  cases s with
  | nil =>
    have hnil : matchTsAt ([] : Line) = none := by decide
    rw [hnil] at h
    exact absurd h (by simp)
  | cons c rest => rw [searchTs, h]

theorem matchTsAt_meta (ts r : Line) (h1 : ts ≠ []) (h2 : ∀ c ∈ ts, tsClassB c = true) :
    matchTsAt (tsLit ++ (ts ++ (' ' :: r))) = some ts := by
  unfold matchTsAt
  rw [if_pos (prefB_append_self tsLit _), List.drop_left,
    takeWhile_append_not h2 (by decide), if_neg (by rw [isEmpty_false_of_ne h1]; simp)]

theorem searchTs_meta (ts r : Line) (h1 : ts ≠ []) (h2 : ∀ c ∈ ts, tsClassB c = true) :
    searchTs (tsLit ++ (ts ++ (' ' :: r))) = some ts :=
  searchTs_of_match (matchTsAt_meta ts r h1 h2)

theorem searchTs_none {s : Line} (h : strIn tsLit s = false) : searchTs s = none := by
  induction s with
  | nil => rfl
  | cons c rest ih =>
    rw [strIn] at h
    rcases Bool.or_eq_false_iff.mp h with ⟨hp, hrest⟩
    have hnm : matchTsAt (c :: rest) = none := by
      unfold matchTsAt
      rw [if_neg (by rw [hp]; exact Bool.false_ne_true)]
    rw [searchTs, hnm, ih hrest]

theorem update_insert_shape {lines : List Line} {marker : Line} {parse : Line → Line}
    {domains : List Line} {ts : Line} {doc1 : List Line}
    (hm : find_marker_position lines marker = none)
    (hrun : update_source_core lines marker parse domains ts = .updated doc1) :
    ∃ d, find_domains_line lines = some d ∧
      doc1 = lines.take (find_domains_section_end lines (d + 1)) ++
        ([[]] ++ newBlockLines marker ts (natStr (normalize_domains domains).length)
          ((normalize_domains domains).map parse)) ++
        lines.drop (find_domains_section_end lines (d + 1)) := by
  simp only [update_source_core, hm, tokensMatch, Option.isNone_none, Bool.true_and,
    if_false, Bool.false_eq_true] at hrun
  by_cases hany : (lines.any (fun l => strIn "domains:".data l)) = true
  · simp only [hany, Bool.not_true, Bool.false_eq_true, if_false] at hrun
    cases hd : find_domains_line lines with
    | none =>
      simp only [update_config_section, hd] at hrun
      exact absurd hrun (by simp)
    | some d =>
      simp only [update_config_section, hd, UpdateResult.updated.injEq] at hrun
      exact ⟨d, rfl, hrun.symm⟩
  · have hany' : (lines.any (fun l => strIn "domains:".data l)) = false :=
      Bool.eq_false_iff.mpr hany
    simp only [hany', Bool.not_false, if_true] at hrun
    exact absurd hrun (by simp)

theorem blankL_tsLit (x : Line) : blankL (tsLit ++ x) = false := by
  have hcons : tsLit ++ x = '#' :: (" Last updated: ".data ++ x) := rfl
  rw [hcons]
  exact blankL_cons_false _ (by decide)

theorem getD_mem_of_lt {l : List Line} {n : Nat} (h : n < l.length) :
    l.getD n [] ∈ l := by
  rw [List.getD_eq_getElem?_getD, List.getElem?_eq_getElem h]
  exact List.getElem_mem h

theorem fmp_after_insert {lines : List Line} (marker ts cstr : Line) (fmt : List Line)
    (k : Nat) (h1 : ∀ l ∈ lines, strIn marker l = false) (hmne : marker ≠ [])
    (hk : k ≤ lines.length) :
    find_marker_position
      (lines.take k ++ ([[]] ++ newBlockLines marker ts cstr fmt) ++ lines.drop k)
      marker = some (k + 1) := by
  have hsh : lines.take k ++ ([[]] ++ newBlockLines marker ts cstr fmt) ++ lines.drop k
      = (lines.take k ++ [[]]) ++ ((marker ++ ". Blocked 24/7".data) ::
          ((tsLit ++ ts ++ " (".data ++ cstr ++ " domains)".data) :: [] ::
            ((if fmt.isEmpty then [[]] else fmt) ++ lines.drop k))) := by
    simp [newBlockLines]
  have hpre : ∀ l ∈ lines.take k ++ [[]], strIn marker l = false := by
    intro l hl
    rcases List.mem_append.mp hl with hl1 | hl2
    · exact h1 l (List.take_subset _ _ hl1)
    · have : l = [] := by simpa using hl2
      subst this
      exact strIn_nil_false hmne
  rw [hsh, fmp_append hpre, fmp_cons_found (strIn_append_self marker _ hmne)]
  have hlenpre : (lines.take k ++ [[]]).length = k + 1 := by
    simp [List.length_append, List.length_take]
    omega
  rw [Option.map_some']
  rw [hlenpre]
  simp

theorem extract_eq {lines : List Line} {marker : Line} {m : Nat}
    (h : find_marker_position lines marker = some m) :
    extract_timestamp_near_marker lines marker =
      ((lines.drop m).take 5).findSome? searchTs := by
  unfold extract_timestamp_near_marker
  rw [h]

theorem extract_after_insert {lines : List Line} (marker ts cstr : Line) (fmt : List Line)
    (k : Nat) (h1 : ∀ l ∈ lines, strIn marker l = false) (hmne : marker ≠ [])
    (hk : k ≤ lines.length)
    (hts1 : ts ≠ []) (hts2 : ∀ c ∈ ts, tsClassB c = true)
    (hhdr : strIn tsLit (marker ++ ". Blocked 24/7".data) = false) :
    extract_timestamp_near_marker
      (lines.take k ++ ([[]] ++ newBlockLines marker ts cstr fmt) ++ lines.drop k)
      marker = some ts := by
  rw [extract_eq (fmp_after_insert marker ts cstr fmt k h1 hmne hk)]
  have hsh : lines.take k ++ ([[]] ++ newBlockLines marker ts cstr fmt) ++ lines.drop k
      = (lines.take k ++ [[]]) ++ ((marker ++ ". Blocked 24/7".data) ::
          ((tsLit ++ ts ++ " (".data ++ cstr ++ " domains)".data) :: [] ::
            ((if fmt.isEmpty then [[]] else fmt) ++ lines.drop k))) := by
    simp [newBlockLines]
  have hlenpre : (lines.take k ++ [[]]).length = k + 1 := by
    simp [List.length_append, List.length_take]
    omega
  rw [hsh]
  rw [show k + 1 = (lines.take k ++ [[]]).length + 0 by omega]
  rw [drop_append_plus, List.drop_zero]
  have hmeta : tsLit ++ ts ++ " (".data ++ cstr ++ " domains)".data
      = tsLit ++ (ts ++ (' ' :: ('(' :: (cstr ++ " domains)".data)))) := by
    simp [show " (".data = [' ', '('] from rfl]
  have hsearch : searchTs (tsLit ++ ts ++ " (".data ++ cstr ++ " domains)".data) = some ts := by
    rw [hmeta]
    exact searchTs_meta ts _ hts1 hts2
  simp only [List.take_succ_cons, List.findSome?_cons, searchTs_none hhdr]
  rw [hsearch]



theorem replaceScan_after_insert {lines : List Line} (marker ts cstr : Line)
    (fmt : List Line) (k : Nat)
    (hk : k ≤ lines.length) (hk1 : k + 1 < lines.length)
    (hb0 : blankL (lines.getD k []) = true) (hb1 : blankL (lines.getD (k + 1) []) = true)
    (hfne : fmt ≠ []) (hfnb : ∀ l ∈ fmt, blankL l = false) :
    replaceScan
      (lines.take k ++ ([[]] ++ newBlockLines marker ts cstr fmt) ++ lines.drop k)
      (k + 2) = k + 1 + (newBlockLines marker ts cstr fmt).length := by
  set nb := newBlockLines marker ts cstr fmt with hnbdef
  set A := lines.take k ++ ([[]] ++ nb) with hAdef
  set doc := A ++ lines.drop k with hdocdef
  have hif : (if fmt.isEmpty then [[]] else fmt) = fmt := by
    rw [isEmpty_false_of_ne hfne]
    rfl
  have hnbcons : nb = (marker ++ ". Blocked 24/7".data) ::
      (tsLit ++ ts ++ " (".data ++ cstr ++ " domains)".data) :: [] :: fmt := by
    simp only [hnbdef, newBlockLines, hif]
    rfl
  have hfl : 0 < fmt.length := List.length_pos.mpr hfne
  have hnbl : nb.length = 3 + fmt.length := by
    rw [hnbcons]
    simp only [List.length_cons]
    omega
  have htk : (lines.take k).length = k := by
    simp only [List.length_take]
    omega
  have hA : A.length = k + 1 + nb.length := by
    simp only [hAdef, List.length_append, htk, List.length_cons, List.length_nil]
    omega
  have hdoclen : doc.length = A.length + (lines.length - k) := by
    simp only [hdocdef, List.length_append, List.length_drop]
  have hdrop : ∀ j, (lines.drop k).getD j [] = lines.getD (k + j) [] := by
    intro j
    rw [List.getD_eq_getElem?_getD, List.getElem?_drop, ← List.getD_eq_getElem?_getD]
  have hgetA : ∀ j, j < nb.length → doc.getD (k + 1 + j) [] = nb.getD j [] := by
    intro j hj2
    have hilt : k + 1 + j < A.length := by omega
    rw [hdocdef, List.getD_append _ _ _ _ hilt, hAdef]
    rw [List.getD_append_right _ _ _ _ (by rw [htk]; omega)]
    rw [htk, show k + 1 + j - k = j + 1 by omega]
    rfl
  have hgetp : ∀ j, doc.getD (k + 1 + nb.length + j) [] = lines.getD (k + j) [] := by
    intro j
    rw [hdocdef, List.getD_append_right _ _ _ _ (by omega)]
    rw [show k + 1 + nb.length + j - A.length = j by omega, hdrop]
  have hmetab : blankL (tsLit ++ ts ++ " (".data ++ cstr ++ " domains)".data) = false := by
    have hassoc : tsLit ++ ts ++ " (".data ++ cstr ++ " domains)".data
        = tsLit ++ (ts ++ (" (".data ++ (cstr ++ " domains)".data))) := by
      simp [List.append_assoc]
    rw [hassoc]
    exact blankL_tsLit _
  have hpair : pairB doc (k + 1 + nb.length) = true := by
    have e0 := hgetp 0
    have e1 := hgetp 1
    simp only [Nat.add_zero] at e0
    rw [pairB, e0, e1, hb0, hb1]
    rfl
  have hmid : ∀ i, k + 2 ≤ i → i < k + 1 + nb.length → pairB doc i = false := by
    intro i hi1 hi2
    obtain ⟨j, rfl⟩ : ∃ j, i = k + 1 + j := ⟨i - (k + 1), by omega⟩
    have hj1 : 1 ≤ j := by omega
    have hj2 : j < nb.length := by omega
    have hdi : doc.getD (k + 1 + j) [] = nb.getD j [] := hgetA j hj2
    rcases Nat.lt_or_ge j 3 with hj3 | hj3
    · have hje : j = 1 ∨ j = 2 := by omega
      rcases hje with rfl | rfl
      · have hmeta1 : nb.getD 1 [] =
            tsLit ++ ts ++ " (".data ++ cstr ++ " domains)".data := by
          rw [hnbcons]
          simp [List.getD_cons_succ, List.getD_cons_zero]
        rw [pairB, hdi, hmeta1, hmetab]
        rfl
      · have h2' : nb.getD 2 [] = [] := by
          rw [hnbcons]
          simp [List.getD_cons_succ, List.getD_cons_zero]
        have h3' : nb.getD 3 [] = fmt.getD 0 [] := by
          rw [hnbcons]
          simp [List.getD_cons_succ]
        have hm0 : blankL (fmt.getD 0 []) = false := hfnb _ (getD_mem_of_lt hfl)
        rw [pairB, hdi, h2', show k + 1 + 2 + 1 = k + 1 + 3 by omega,
          hgetA 3 (by omega), h3', hm0]
        decide
    · obtain ⟨t, rfl⟩ : ∃ t, j = t + 3 := ⟨j - 3, by omega⟩
      have hj4 : t < fmt.length := by omega
      have hft : nb.getD (t + 3) [] = fmt.getD t [] := by
        rw [hnbcons]
        simp [List.getD_cons_succ]
      have hmem : blankL (fmt.getD t []) = false :=
        hfnb _ (getD_mem_of_lt hj4)
      rw [pairB, hdi, hft, hmem]
      rfl
  exact replaceScan_eq_of doc (k + 2) (k + 1 + nb.length) (by omega) hpair
    (by omega) hmid

theorem strIn_empty_pat (l : Line) : strIn [] l = true := by
  cases l <;> simp [strIn, prefB]

theorem fmp_none_inv {ls : List Line} {m : Line}
    (h : find_marker_position ls m = none) : ∀ l ∈ ls, strIn m l = false := by
  induction ls with
  | nil => intro l hl; simp at hl
  | cons a rest ih =>
    rw [find_marker_position] at h
    by_cases hc : strIn m a = true
    · rw [if_pos hc] at h
      exact absurd h (by simp)
    · rw [if_neg hc] at h
      intro l hl
      rcases List.mem_cons.mp hl with rfl | hl'
      · exact Bool.eq_false_iff.mpr hc
      · exact ih (Option.map_eq_none'.mp h) l hl'

theorem fmp_take_clean {lines : List Line} {marker : Line} {m : Nat}
    (h : find_marker_position lines marker = some m) :
    ∀ l ∈ lines.take m, strIn marker l = false := by
  induction lines generalizing m with
  | nil => intro l hl; simp at hl
  | cons a rest ih =>
    rw [find_marker_position] at h
    by_cases hc : strIn marker a = true
    · rw [if_pos hc] at h
      cases h
      intro l hl
      simp at hl
    · rw [if_neg hc] at h
      rcases Option.map_eq_some'.mp h with ⟨j, hj, rfl⟩
      intro l hl
      rw [List.take_succ_cons] at hl
      rcases List.mem_cons.mp hl with rfl | hl'
      · exact Bool.eq_false_iff.mpr hc
      · exact ih hj l hl'

theorem usc_upToDate {doc1 : List Line} {marker ts : Line} {parse : Line → Line}
    {domains : List Line} {i : Nat}
    (hm1 : find_marker_position doc1 marker = some i)
    (hex : extract_timestamp_near_marker doc1 marker = some ts)
    (hts : ts ≠ []) :
    update_source_core doc1 marker parse domains ts = .upToDate := by
  simp only [update_source_core, hm1, hex, tokensMatch_self hts, if_true]

theorem fmp_block_at {pre tail : List Line} {marker : Line} (suffix : Line)
    (hpre : ∀ l ∈ pre, strIn marker l = false) (hmne : marker ≠ []) :
    find_marker_position (pre ++ (marker ++ suffix) :: tail) marker =
      some pre.length := by
  rw [fmp_append hpre, fmp_cons_found (strIn_append_self marker suffix hmne)]
  simp

theorem extract_block_at {pre tail : List Line} {marker ts cstr : Line}
    (hpre : ∀ l ∈ pre, strIn marker l = false) (hmne : marker ≠ [])
    (hts1 : ts ≠ []) (hts2 : ∀ c ∈ ts, tsClassB c = true)
    (hhdr : strIn tsLit (marker ++ ". Blocked 24/7".data) = false) :
    extract_timestamp_near_marker
      (pre ++ (marker ++ ". Blocked 24/7".data) ::
        (tsLit ++ ts ++ " (".data ++ cstr ++ " domains)".data) :: tail) marker
      = some ts := by
  rw [extract_eq (fmp_block_at _ hpre hmne)]
  rw [show pre.length = pre.length + 0 by omega, drop_append_plus, List.drop_zero]
  have hmeta : tsLit ++ ts ++ " (".data ++ cstr ++ " domains)".data
      = tsLit ++ (ts ++ (' ' :: ('(' :: (cstr ++ " domains)".data)))) := by
    simp [show " (".data = [' ', '('] from rfl]
  have hsearch : searchTs (tsLit ++ ts ++ " (".data ++ cstr ++ " domains)".data)
      = some ts := by
    rw [hmeta]
    exact searchTs_meta ts _ hts1 hts2
  simp only [List.take_succ_cons, List.findSome?_cons, searchTs_none hhdr]
  rw [hsearch]

theorem update_replace_shape {lines : List Line} {marker : Line} {parse : Line → Line}
    {domains : List Line} {ts : Line} {doc1 : List Line} {m : Nat}
    (hm : find_marker_position lines marker = some m)
    (hrun : update_source_core lines marker parse domains ts = .updated doc1) :
    doc1 = lines.take m ++
      newBlockLines marker ts (natStr (normalize_domains domains).length)
        ((normalize_domains domains).map parse) ++
      lines.drop (replaceScan lines (m + 1)) := by
  simp only [update_source_core, hm] at hrun
  by_cases htm : tokensMatch (extract_timestamp_near_marker lines marker) ts = true
  · rw [if_pos htm] at hrun
    exact absurd hrun (by simp)
  · rw [if_neg htm] at hrun
    simp only [Option.isNone_some, Bool.false_and, Bool.false_eq_true, if_false,
      update_config_section, UpdateResult.updated.injEq] at hrun
    exact hrun.symm

/-- C1: patching a block (replacing an existing block or inserting a new one)
never changes any line outside the computed `[start, end)` splice range: the
prefix before `start` and the suffix from `end` (placed after the replacement)
are preserved byte for byte, order included. -/
theorem update_config_section_frame (lines : List Line) (marker : Line)
    (fmt : List Line) (ts : Line) (cnt : Nat) (res : List Line)
    (h : update_config_section lines marker (find_marker_position lines marker)
        fmt ts cnt = some res) :
    res.take (splice_bounds lines marker).1 =
      lines.take (splice_bounds lines marker).1 ∧
    res.drop (res.length - (lines.length - (splice_bounds lines marker).2)) =
      lines.drop (splice_bounds lines marker).2 := by
  cases hm : find_marker_position lines marker with
  | some m =>
    rw [hm] at h
    simp only [update_config_section, Option.some.injEq] at h
    have hres := h.symm
    have hmlt : m < lines.length := fmp_lt hm
    have hsb : splice_bounds lines marker = (m, replaceScan lines (m + 1)) := by
      simp only [splice_bounds, hm]
    rw [hsb]
    constructor
    · rw [hres, List.append_assoc]
      exact List.take_left' (by simp [List.length_take]; omega)
    · rw [hres]
      have hlen : (lines.take m ++ newBlockLines marker ts (natStr cnt) fmt ++
            lines.drop (replaceScan lines (m + 1))).length
          = (lines.take m ++ newBlockLines marker ts (natStr cnt) fmt).length +
            (lines.length - replaceScan lines (m + 1)) := by
        simp [List.length_append, List.length_drop]
        omega
      rw [hlen, Nat.add_sub_cancel]
      exact List.drop_left _ _
  | none =>
    rw [hm] at h
    cases hd : find_domains_line lines with
    | none =>
      simp only [update_config_section, hd] at h
      exact absurd h (by simp)
    | some d =>
      simp only [update_config_section, hd, Option.some.injEq] at h
      have hres := h.symm
      have hk : find_domains_section_end lines (d + 1) ≤ lines.length :=
        fdse_le_length _ _
      have hsb : splice_bounds lines marker =
          (find_domains_section_end lines (d + 1),
           find_domains_section_end lines (d + 1)) := by
        simp only [splice_bounds, hm, hd]
      rw [hsb]
      constructor
      · rw [hres, List.append_assoc]
        exact List.take_left' (by simp [List.length_take]; omega)
      · rw [hres]
        have hlen : (lines.take (find_domains_section_end lines (d + 1)) ++
              ([[]] ++ newBlockLines marker ts (natStr cnt) fmt) ++
              lines.drop (find_domains_section_end lines (d + 1))).length
            = (lines.take (find_domains_section_end lines (d + 1)) ++
                ([[]] ++ newBlockLines marker ts (natStr cnt) fmt)).length +
              (lines.length - find_domains_section_end lines (d + 1)) := by
          simp [List.length_append, List.length_drop]
          omega
        rw [hlen, Nat.add_sub_cancel]
        exact List.drop_left _ _

/-- Witness for C1 at a concrete document with an existing block. -/
theorem update_config_section_frame_witness :
    c1wRes.take (splice_bounds c1wDoc c1wMarker).1 =
      c1wDoc.take (splice_bounds c1wDoc c1wMarker).1 ∧
    c1wRes.drop (c1wRes.length - (c1wDoc.length - (splice_bounds c1wDoc c1wMarker).2)) =
      c1wDoc.drop (splice_bounds c1wDoc c1wMarker).2 :=
  update_config_section_frame c1wDoc c1wMarker ["  - z".data] "T".data 1 c1wRes
    (by decide)

/-- C2 counterexample: the replace-path block-end scan does not stop at a new
top-level section line the way the claim describes (rule (b) of
`findBlockEnd`): on `c2Doc`, scanning from line 1, the code's scan runs to 6
(the first blank/blank pair) while the claimed scan stops at 4 (`ports:`). -/
theorem replace_scan_ignores_top_level_cex :
    replaceScan c2Doc 1 = 6 ∧ spec_find_block_end c2Doc 1 = 4 ∧
    replaceScan c2Doc 1 ≠ spec_find_block_end c2Doc 1 := by
  decide

/-- C2 (amended): the replace-path block-end scan stops exactly at the first
index `i ≥ start` with lines `i` and `i+1` both blank (both blanks left
outside the replaced range); a non-blank, non-comment, non-indented line does
not stop it; and when no blank pair occurs the scan stops at index
`length - 1`, never at `length`. -/
theorem replace_scan_blank_pair_charact (lines : List Line) (s : Nat) :
    s ≤ replaceScan lines s ∧
    replaceScan lines s ≤ max s (lines.length - 1) ∧
    (replaceScan lines s < lines.length - 1 →
      pairB lines (replaceScan lines s) = true) ∧
    (∀ i, s ≤ i → i < replaceScan lines s → pairB lines i = false) :=
  ⟨replaceScan_ge lines s, replaceScan_le_max lines s,
   replaceScan_pair lines s, fun i => replaceScan_min lines s i⟩

/-- Witness for the amended C2 at the concrete document `c2Doc`. -/
theorem replace_scan_blank_pair_charact_witness :
    1 ≤ replaceScan c2Doc 1 ∧ replaceScan c2Doc 1 ≤ max 1 (c2Doc.length - 1) ∧
    pairB c2Doc (replaceScan c2Doc 1) = true ∧ pairB c2Doc 4 = false := by
  refine ⟨(replace_scan_blank_pair_charact c2Doc 1).1,
    (replace_scan_blank_pair_charact c2Doc 1).2.1,
    (replace_scan_blank_pair_charact c2Doc 1).2.2.1 (by decide),
    (replace_scan_blank_pair_charact c2Doc 1).2.2.2 4 (by decide) (by decide)⟩

/-- C5 counterexample: the `domains:` locator is not an exact top-level line
match.  On `c5Doc` the code locates the indented line 0 (whose stripped
content is `domains:`), not the exact top-level `domains:` at line 2, so the
new block is spliced before line 1; the claim would require the first three
lines (up to and including the top-level `domains:`) to be preserved as a
prefix. -/
theorem insert_locator_not_top_level_cex :
    find_domains_line c5Doc = some 0 ∧
    spec_locate_domains c5Doc = some 2 ∧
    (update_config_section c5Doc c5Marker none ["  - a".data] "T".data 1).map
        (fun dres => dres.take 3) ≠ some (c5Doc.take 3) := by
  decide

/-- C5 (amended): with no existing marker, `update_config_section` locates the
first line whose whitespace-stripped content equals `domains:` (which need not
be top-level), splices a blank separator line followed by the new block
(marker line, metadata line, blank line, formatted entries) just before the
end of the list computed by `find_domains_section_end`; when no such line
exists the operation fails (`SectionNotFound`) and no document is produced,
and the whole per-source update ends in the `SectionNotFound` outcome (one
diagnostic, non-zero exit, no write). -/
theorem insert_path_charact (lines : List Line) (marker : Line) (fmt : List Line)
    (ts : Line) (cnt : Nat) (parse : Line → Line) (domains : List Line) :
    (∀ d, find_domains_line lines = some d →
      update_config_section lines marker none fmt ts cnt =
        some (lines.take (find_domains_section_end lines (d + 1)) ++
          ([[]] ++ newBlockLines marker ts (natStr cnt) fmt) ++
          lines.drop (find_domains_section_end lines (d + 1)))) ∧
    (find_domains_line lines = none →
      update_config_section lines marker none fmt ts cnt = none) ∧
    (find_marker_position lines marker = none → find_domains_line lines = none →
      update_source_core lines marker parse domains ts = .sectionNotFound) := by
  refine ⟨?_, ?_, ?_⟩
  · intro d hd
    simp only [update_config_section, hd]
  · intro hd
    simp only [update_config_section, hd]
  · intro hm hd
    simp only [update_source_core, hm, tokensMatch, Option.isNone_none,
      Bool.true_and, Bool.false_eq_true, if_false]
    by_cases hany : (lines.any (fun l => strIn "domains:".data l)) = true
    · simp only [hany, Bool.not_true, Bool.false_eq_true, if_false,
        update_config_section, hd]
    · have hany' : (lines.any (fun l => strIn "domains:".data l)) = false :=
        Bool.eq_false_iff.mpr hany
      simp only [hany', Bool.not_false, if_true]

/-- Witness for the amended C5 at a concrete first-run document. -/
theorem insert_path_charact_witness :
    update_config_section c5wDoc c5Marker none ["  - a".data] "T".data 1 =
      some (c5wDoc.take (find_domains_section_end c5wDoc (0 + 1)) ++
        ([[]] ++ newBlockLines c5Marker "T".data (natStr 1) ["  - a".data]) ++
        c5wDoc.drop (find_domains_section_end c5wDoc (0 + 1))) :=
  (insert_path_charact c5wDoc c5Marker ["  - a".data] "T".data 1 id []).1 0
    (by decide)

/-- C3 counterexample: with the freshness token `23 Dec 2025 10:32 UTC`
(spaces are outside the timestamp pattern's character class), the first run
writes a block, but the second run does not take the UpToDate path: the
stored token read back from the metadata line is only `23`, which differs
from the fetched token, so the second run patches and writes again instead of
performing no write. -/
theorem second_run_not_up_to_date_cex :
    update_source_core c3Lines c3Marker c3Parse ["a.com".data] c3BadTs =
      .updated c3BadDoc1 ∧
    extract_timestamp_near_marker c3BadDoc1 c3Marker = some "23".data ∧
    update_source_core c3BadDoc1 c3Marker c3Parse ["a.com".data] c3BadTs ≠
      .upToDate := by
  decide

/-- C3 (amended): applying a single-source update twice with an unchanged
freshness token makes the second run read the stored token, find it equal to
the fetched one, and take the UpToDate path with no write — provided the
token is a nonempty string over the timestamp pattern's character class
(digits, `T`, `:`, `-`, `Z`), the marker is nonempty, and the marker line does
not itself contain the metadata literal `# Last updated: `.  The document is
then byte-identical after the second run because the UpToDate path writes
nothing. -/
theorem second_run_up_to_date {lines doc1 : List Line} {marker ts : Line}
    {parse : Line → Line} {domains : List Line}
    (hrun : update_source_core lines marker parse domains ts = .updated doc1)
    (hmne : marker ≠ [])
    (hts1 : ts ≠ []) (hts2 : ∀ c ∈ ts, tsClassB c = true)
    (hhdr : strIn tsLit (marker ++ ". Blocked 24/7".data) = false) :
    update_source_core doc1 marker parse domains ts = .upToDate := by
  cases hm : find_marker_position lines marker with
  | none =>
    obtain ⟨d, hd, hdoc1⟩ := update_insert_shape hm hrun
    have h1 : ∀ l ∈ lines, strIn marker l = false := fmp_none_inv hm
    have hk : find_domains_section_end lines (d + 1) ≤ lines.length :=
      fdse_le_length _ _
    subst hdoc1
    exact usc_upToDate
      (fmp_after_insert marker ts _ _ _ h1 hmne hk)
      (extract_after_insert marker ts _ _ _ h1 hmne hk hts1 hts2 hhdr)
      hts1
  | some m =>
    have hdoc1 := update_replace_shape hm hrun
    have hpre : ∀ l ∈ lines.take m, strIn marker l = false := fmp_take_clean hm
    subst hdoc1
    have hsh : lines.take m ++
        newBlockLines marker ts (natStr (normalize_domains domains).length)
          ((normalize_domains domains).map parse) ++
        lines.drop (replaceScan lines (m + 1))
        = lines.take m ++ (marker ++ ". Blocked 24/7".data) ::
            (tsLit ++ ts ++ " (".data ++
              natStr (normalize_domains domains).length ++ " domains)".data) ::
            ([] :: ((if ((normalize_domains domains).map parse).isEmpty then [[]]
              else (normalize_domains domains).map parse) ++
              lines.drop (replaceScan lines (m + 1)))) := by
      simp [newBlockLines]
    rw [hsh]
    exact usc_upToDate (fmp_block_at _ hpre hmne)
      (extract_block_at hpre hmne hts1 hts2 hhdr) hts1

/-- Witness for the amended C3: a concrete first run inserts a block and the
second run with the same token is UpToDate. -/
theorem second_run_up_to_date_witness :
    update_source_core c3GoodDoc1 c3Marker c3Parse ["a.com".data] c3Ts =
      .upToDate :=
  @second_run_up_to_date c3Lines c3GoodDoc1 c3Marker c3Ts c3Parse
    ["a.com".data] (by decide) (by decide) (by decide) (by decide) (by decide)

/-- C6 counterexample: after inserting a new block for a marker not present,
the Marker Locator does find the marker at the inserted position (line 3),
but the Boundary Resolver does not report the end used during insertion: the
insertion end was line 2 of `c6Lines` (the top-level `other:` line), which
corresponds to index 2 + 5 = 7 of the new document, while the replace-path
scan reports 8 — it runs past `other:` and eats the manual line. -/
theorem insert_locate_end_mismatch_cex :
    update_source_core c6Lines c6Marker c6Parse ["x".data] "2025Z".data =
      .updated c6Doc1 ∧
    find_domains_section_end c6Lines (0 + 1) = 2 ∧
    find_marker_position c6Doc1 c6Marker = some 3 ∧
    replaceScan c6Doc1 4 = 8 ∧
    replaceScan c6Doc1 4 ≠
      2 + 1 + (newBlockLines c6Marker "2025Z".data (natStr 1) ["  - x".data]).length := by
  decide

/-- C6 (amended): after inserting a new block for a marker not previously
present, re-running the Marker Locator finds the marker exactly at the
inserted position (insertion point + 1, after the blank separator); and when
the insertion point was immediately followed by two blank lines (the
blank-pair/`- name:` terminator case of the list-end scan) and the formatted
entries are nonempty and non-blank, the Boundary Resolver reports exactly the
end of the inserted block — the index corresponding to the insertion end.
(In the other terminator cases the resolver can scan past the inserted block,
as the counterexample shows.) -/
theorem insert_then_locate {lines doc1 : List Line} {marker ts : Line}
    {parse : Line → Line} {domains : List Line} {d : Nat}
    (h1 : ∀ l ∈ lines, strIn marker l = false)
    (hrun : update_source_core lines marker parse domains ts = .updated doc1)
    (hd : find_domains_line lines = some d)
    (hk1 : find_domains_section_end lines (d + 1) + 1 < lines.length)
    (hb0 : blankL (lines.getD (find_domains_section_end lines (d + 1)) []) = true)
    (hb1 : blankL (lines.getD (find_domains_section_end lines (d + 1) + 1) []) = true)
    (hfne : (normalize_domains domains).map parse ≠ [])
    (hfnb : ∀ l ∈ (normalize_domains domains).map parse, blankL l = false) :
    find_marker_position doc1 marker =
      some (find_domains_section_end lines (d + 1) + 1) ∧
    replaceScan doc1 (find_domains_section_end lines (d + 1) + 2) =
      find_domains_section_end lines (d + 1) + 1 +
        (newBlockLines marker ts (natStr (normalize_domains domains).length)
          ((normalize_domains domains).map parse)).length := by
  have hm : find_marker_position lines marker = none := fmp_none h1
  obtain ⟨d', hd', hdoc1⟩ := update_insert_shape hm hrun
  rw [hd'] at hd
  injection hd with hd
  subst hd
  have hlne : lines ≠ [] := by
    intro hnil
    rw [hnil] at hd'
    exact absurd hd' (by simp [find_domains_line])
  have hmne : marker ≠ [] := by
    intro hmnil
    obtain ⟨l0, hl0⟩ : ∃ l, l ∈ lines := by
      cases lines with
      | nil => exact absurd rfl hlne
      | cons a r => exact ⟨a, List.mem_cons_self _ _⟩
    have hfalse := h1 l0 hl0
    rw [hmnil, strIn_empty_pat] at hfalse
    simp at hfalse
  have hk : find_domains_section_end lines (d' + 1) ≤ lines.length :=
    fdse_le_length _ _
  subst hdoc1
  exact ⟨fmp_after_insert marker ts _ _ _ h1 hmne hk,
    replaceScan_after_insert marker ts _ _ _ hk hk1 hb0 hb1 hfne hfnb⟩

/-- Witness for the amended C6: insertion point followed by a blank pair. -/
theorem insert_then_locate_witness :
    find_marker_position c6wDoc1 c6wMarker =
      some (find_domains_section_end c6wLines (0 + 1) + 1) ∧
    replaceScan c6wDoc1 (find_domains_section_end c6wLines (0 + 1) + 2) =
      find_domains_section_end c6wLines (0 + 1) + 1 +
        (newBlockLines c6wMarker c3Ts (natStr (normalize_domains ["a.com".data]).length)
          ((normalize_domains ["a.com".data]).map c3Parse)).length :=
  @insert_then_locate c6wLines c6wDoc1 c6wMarker c3Ts c3Parse ["a.com".data] 0
    (by decide) (by decide) (by decide) (by decide) (by decide) (by decide)
    (by decide) (by decide)

/-- C7: in run-all mode a fatal failure of one source never aborts the batch:
with three sources where the second one's fetch fails, the first and third are
still processed (the final document reflects both of their runs) and the
summary reports 1 failure and 2 successes/up-to-date. -/
theorem batch_isolation (s1 s2 s3 : SourceSpec) (doc : List Line)
    (d1 : List Line) (t1 : Line) (d3 : List Line) (t3 : Line)
    (hf1 : s1.fetch = some (d1, t1)) (hf2 : s2.fetch = none)
    (hf3 : s3.fetch = some (d3, t3))
    (h1 : update_source_core doc s1.marker s1.parse d1 t1 ≠ .sectionNotFound)
    (h3 : update_source_core
        (updResultDoc (update_source_core doc s1.marker s1.parse d1 t1) doc)
        s3.marker s3.parse d3 t3 ≠ .sectionNotFound) :
    run_all [s1, s2, s3] doc =
      (updResultDoc
        (update_source_core
          (updResultDoc (update_source_core doc s1.marker s1.parse d1 t1) doc)
          s3.marker s3.parse d3 t3)
        (updResultDoc (update_source_core doc s1.marker s1.parse d1 t1) doc),
       ⟨2, 0, 1⟩) := by
  cases hu1 : update_source_core doc s1.marker s1.parse d1 t1 with
  | sectionNotFound => exact absurd hu1 h1
  | upToDate =>
    rw [hu1] at h3
    simp only [updResultDoc] at h3
    cases hu3 : update_source_core doc s3.marker s3.parse d3 t3 with
    | sectionNotFound => exact absurd hu3 h3
    | upToDate =>
      simp [run_all, hf1, hf2, hf3, hu1, hu3, updResultDoc]
    | updated nd3 =>
      simp [run_all, hf1, hf2, hf3, hu1, hu3, updResultDoc]
  | updated nd1 =>
    rw [hu1] at h3
    simp only [updResultDoc] at h3
    cases hu3 : update_source_core nd1 s3.marker s3.parse d3 t3 with
    | sectionNotFound => exact absurd hu3 h3
    | upToDate =>
      simp [run_all, hf1, hf2, hf3, hu1, hu3, updResultDoc]
    | updated nd3 =>
      simp [run_all, hf1, hf2, hf3, hu1, hu3, updResultDoc]

/-- Witness for C7: source 1 is up to date, source 2's fetch fails, source 3
inserts a new block; the batch completes with tally (2, 0, 1). -/
theorem batch_isolation_witness :
    run_all [c7s1, c7s2, c7s3] c7Doc =
      (updResultDoc
        (update_source_core
          (updResultDoc (update_source_core c7Doc c7s1.marker c7s1.parse
            ["a.com".data] c3Ts) c7Doc)
          c7s3.marker c7s3.parse ["c.com".data] "2025-03-03T00:00:00Z".data)
        (updResultDoc (update_source_core c7Doc c7s1.marker c7s1.parse
          ["a.com".data] c3Ts) c7Doc),
       ⟨2, 0, 1⟩) :=
  batch_isolation c7s1 c7s2 c7s3 c7Doc ["a.com".data] c3Ts ["c.com".data]
    "2025-03-03T00:00:00Z".data (by decide) (by decide) (by decide) (by decide)
    (by decide)

/-- C8 (code bug): a source whose stored freshness token equals the freshly
fetched token takes the UpToDate outcome, but in batch mode it is counted in
`success_count`, not in the up-to-date tally: `update_source` returns
normally on the UpToDate path and never raises `SystemExit(0)`, so
`skipped_count` (printed as "Already up to date") can never be incremented —
the summary here is 1 success, 0 up-to-date, 0 errors. -/
theorem up_to_date_counted_as_success :
    update_source_core c8Doc c8Src.marker c8Src.parse ["a.com".data] c3Ts =
      .upToDate ∧
    run_all [c8Src] c8Doc = (c8Doc, ⟨1, 0, 0⟩) := by
  decide

/-- C9: normalization of `["www.a.com", "a.com", "b.com", "www.a.com"]`
strips the `www.` prefix and deduplicates preserving first-seen order,
yielding exactly `["a.com", "b.com"]`. -/
theorem normalize_dedup_example :
    normalize_domains
      ["www.a.com".data, "a.com".data, "b.com".data, "www.a.com".data] =
      ["a.com".data, "b.com".data] := by
  decide

/-- C10: the literal prefix `www.` is removed exactly once and only at the
very start of an entry: every entry of the form `www.` ++ s becomes s (so
`www.www.a.com` becomes `www.a.com`, not `a.com`), while `wwwx.com` and an
entry containing `www.` only in the middle are left unchanged. -/
theorem strip_www_once_at_start :
    (∀ s : Line, strip_www ("www.".data ++ s) = s) ∧
    strip_www "www.www.a.com".data = "www.a.com".data ∧
    strip_www "wwwx.com".data = "wwwx.com".data ∧
    strip_www "a.www.b.com".data = "a.www.b.com".data := by
  refine ⟨?_, by decide, by decide, by decide⟩
  intro s
  unfold strip_www
  rw [if_pos (prefB_append_self _ s)]
  rfl

/-- C4 counterexample: strip does not preserve every line outside a managed
block.  `c4cexDoc` is exactly what the script's own insert produces on
`c4cexLines` (a registry block spliced directly before the top-level `ports:`
section, with no trailing blank-line pair); stripping it finds no blank pair,
scans to `length - 1`, and deletes the manual top-level line `ports:` along
with the block — the strip then reports one removal and writes the mutilated
document. -/
theorem strip_eats_manual_line_cex :
    update_source_core c4cexLines c4m1 c3Parse ["a.com".data] c3Ts =
      .updated c4cexDoc ∧
    strip_managed_sources c4cexDoc =
      (["domains:".data, "  - m".data, [], "  - 443".data], 1) ∧
    "ports:".data ∈ c4cexDoc ∧
    "ports:".data ∉ (strip_managed_sources c4cexDoc).1 := by
  decide

/-- C4 (amended): provided every managed block is terminated by two
consecutive blank lines (with no blank pair inside the block body, and each
registry marker occurring only on its own block's marker line), stripping
removes all and only the blocks whose markers are in the registry — each block
removed from its marker line through one trailing blank line inclusive (the
second blank of the terminating pair is kept as the remaining separator) —
every line outside a managed block is preserved verbatim, sources without a
block leave the document untouched, and a second strip immediately after a
first removes nothing (count 0, hence no write).  Without the blank-pair
terminator the code violates the claim, as the counterexample shows. -/
theorem strip_managed_correct (cs : List Chunk)
    (h1 : ∀ c ∈ cs, chunkOK sourceMarkers c)
    (h2 : (blockMarkers cs).Nodup) :
    strip_managed_sources (render cs) =
      (render (strippedChunks cs), (blockMarkers cs).length) ∧
    strip_managed_sources (render (strippedChunks cs)) =
      (render (strippedChunks cs), 0) := by
  have h3 : ∀ m ∈ sourceMarkers, m ≠ [] := by decide
  unfold strip_managed_sources
  constructor
  · exact strip_managed_good sourceMarkers cs h1 h2 h3
  · have hok := strippedChunks_ok h1 h3
    have hb := blockMarkers_stripped cs
    have hmain := strip_managed_good sourceMarkers (strippedChunks cs) hok
      (by rw [hb]; exact List.nodup_nil) h3
    rw [strippedChunks_id hb, hb] at hmain
    exact hmain

/-- Witness for C4: a document with manual regions and two managed blocks. -/
theorem strip_managed_correct_witness :
    strip_managed_sources (render c4Chunks) =
      (render (strippedChunks c4Chunks), (blockMarkers c4Chunks).length) ∧
    strip_managed_sources (render (strippedChunks c4Chunks)) =
      (render (strippedChunks c4Chunks), 0) :=
  strip_managed_correct c4Chunks (by decide) (by decide)
